import Mathlib

/-
  Verification development for the async job manager of vimini
  (src/python3/vimini/util.py).

  The embedding below is a shallow, executable translation of the
  job-management part of util.py:

  * `reserve_next_job_id` / the fresh-id branch of `start_async_job`
    (util.py lines 354-397) over an explicit `ManagerState` that threads
    the module-level `_JOB_COUNTER`, `_JOB_NAMES`, `_JOB_CLIENTS`;
  * `_handle_response_stream` (lines 418-444) over a data model of the
    response chunks: a chunk either has a `candidates` attribute, or only
    a `text` attribute, or neither; a part carries `text` (None or a
    string — both None and "" are falsy), a `thought` flag and a
    `thought_signature` flag (hasattr-and-truthy collapsed to a Bool);
  * `_job_worker` (lines 446-466) in both modes.  The streaming producer
    is a list of chunks plus an optional exception raised by the iterator
    after those chunks; the whole client call may also raise, hence
    `Except String Stream`.  The step function of step-function mode
    returns `(next_count, response)` or raises; the Python "response"
    value is modelled by `PyVal` (None, a string, or a stream).  The
    unbounded `while True` loop is given explicit fuel; running out of
    fuel represents a still-live loop (`LoopOutcome.running`);
  * `process_queue` (lines 468-528) as a pure function from the drained
    queue contents, the `_ACTIVE_JOBS` registry and `_JOB_NAMES` to the
    list of callback invocations performed, the final registry/names,
    the last `status_update`, the stop-timer signal, and the exception
    (if any) escaping the poll together with the messages left on the
    queue in that case.  Callbacks are modelled by which keys the dict
    has, what each invocation raises (if anything), and the value
    `on_error` returns (which the Python code discards).
-/

namespace Vimini

/-- One `part` of a candidate's content, as read by
`_handle_response_stream`: `part.text` (None or a string; both `None` and
`""` are falsy in Python), the truthiness of `part.thought` and of
`part.thought_signature` (each `hasattr(...) and <attr>` collapsed to one
Bool). -/
structure Part where
  text : Option String
  thought : Bool
  thought_signature : Bool
  deriving DecidableEq

/-- A candidate: `candidate.content.parts`, where `none` models a falsy
`candidate.content` (the code also skips when `parts` is empty or None;
an empty list covers those cases). -/
structure Candidate where
  content : Option (List Part)
  deriving DecidableEq

/-- One chunk yielded by the response stream: either it has a
`candidates` attribute, or no `candidates` but a `text` attribute, or
neither attribute (in which case `_handle_response_stream` enqueues
nothing for it). -/
inductive RespChunk where
  | cands : List Candidate → RespChunk
  | textOnly : Option String → RespChunk
  | blank : RespChunk
  deriving DecidableEq

/-- A response stream: the chunks the iterator yields, then optionally an
exception (its text) raised by the iterator after those chunks. -/
structure StreamData where
  chunks : List RespChunk
  raisesAfter : Option String
  deriving DecidableEq

/-- A Python value as it can appear as a queue-message payload or as the
`response` component returned by a step function: `None`, a string, or a
stream object. -/
inductive PyVal where
  | vNone : PyVal
  | vStr : String → PyVal
  | vStream : StreamData → PyVal
  deriving DecidableEq

/-- Message kinds placed on `_JOB_QUEUE`. -/
inductive MsgKind where
  | chunk : MsgKind
  | thought : MsgKind
  | error : MsgKind
  | finish : MsgKind
  deriving DecidableEq

/-- A queue message `(job_id, msg_type, data)`. -/
structure Msg where
  jobId : Nat
  kind : MsgKind
  payload : PyVal
  deriving DecidableEq

/-- Messages `_handle_response_stream` enqueues for one part of the first
candidate: skipped when `thought_signature` is truthy or `part.text` is
falsy; otherwise one `thought` or `chunk` message depending on
`part.thought`. -/
def partMsgs (jobId : Nat) (p : Part) : List Msg :=
  if p.thought_signature then []
  else
    match p.text with
    | none => []
    | some t =>
      if t = "" then []
      else [⟨jobId, if p.thought then MsgKind.thought else MsgKind.chunk, PyVal.vStr t⟩]

/-- Messages for a list of parts, in order. -/
def partsMsgs (jobId : Nat) : List Part → List Msg
  | [] => []
  | p :: rest => partMsgs jobId p ++ partsMsgs jobId rest

/-- Messages `_handle_response_stream` enqueues for one chunk of the
stream: the candidates path reads only `candidates[0]`; the fallback path
enqueues `chunk.text` unconditionally (even when falsy); a chunk with
neither attribute enqueues nothing. -/
def chunkMsgs (jobId : Nat) (c : RespChunk) : List Msg :=
  match c with
  | RespChunk.cands [] => []
  | RespChunk.cands (cand :: _) =>
    match cand.content with
    | none => []
    | some parts => partsMsgs jobId parts
  | RespChunk.textOnly t =>
    [⟨jobId, MsgKind.chunk, match t with | none => PyVal.vNone | some s => PyVal.vStr s⟩]
  | RespChunk.blank => []

/-- Messages for a list of chunks, in order. -/
def streamMsgs (jobId : Nat) : List RespChunk → List Msg
  | [] => []
  | c :: rest => chunkMsgs jobId c ++ streamMsgs jobId rest

/-- `_handle_response_stream(job_id, response_stream)`: the messages it
enqueues, paired with the exception (if any) the stream iterator raises
after them, which propagates to `_job_worker`. -/
def handleResponseStream (jobId : Nat) (s : StreamData) : List Msg × Option String :=
  (streamMsgs jobId s.chunks, s.raisesAfter)

/-- `_job_worker` in simple streaming mode (no `target_func`): the client
call either raises immediately (`Except.error`) or returns a stream.  The
stream's messages are enqueued; if the iterator raises, the exception is
caught and one `error` message enqueued; otherwise one `finish` message
is enqueued. -/
def jobWorkerSimple (jobId : Nat) (producer : Except String StreamData) : List Msg :=
  match producer with
  | Except.error e => [⟨jobId, MsgKind.error, PyVal.vStr e⟩]
  | Except.ok s =>
    match handleResponseStream jobId s with
    | (msgs, some e) => msgs ++ [⟨jobId, MsgKind.error, PyVal.vStr e⟩]
    | (msgs, none) => msgs ++ [⟨jobId, MsgKind.finish, PyVal.vNone⟩]

/-- Outcome of the step-function `while True` loop of `_job_worker`:
still looping when fuel runs out, broke out via `next_count == 0`, or an
exception propagated out of the loop body. -/
inductive LoopOutcome where
  | running : LoopOutcome
  | broke : LoopOutcome
  | raised : String → LoopOutcome
  deriving DecidableEq

/-- The step-function loop of `_job_worker` (lines 449-458): invoke
`target_func(count)`; on `next_count == 0` enqueue
`(job_id, 'error', response)` and break; otherwise update `count` and, if
`response` is a stream, drain it (an iterator exception propagates out of
the loop); then loop again.  A truthy non-stream response (e.g. a
non-empty string) is iterated by `_handle_response_stream` but yields no
messages, like a falsy response.  `fuel` bounds the number of
iterations. -/
def stepLoop (jobId : Nat) (step : Nat → Except String (Nat × PyVal)) :
    Nat → Nat → List Msg × LoopOutcome
  | 0, _ => ([], LoopOutcome.running)
  | fuel + 1, count =>
    match step count with
    | Except.error e => ([], LoopOutcome.raised e)
    | Except.ok (next, payload) =>
      if next = 0 then
        ([⟨jobId, MsgKind.error, payload⟩], LoopOutcome.broke)
      else
        match payload with
        | PyVal.vStream s =>
          match handleResponseStream jobId s with
          | (msgs, some e) => (msgs, LoopOutcome.raised e)
          | (msgs, none) =>
            match stepLoop jobId step fuel next with
            | (rest, out) => (msgs ++ rest, out)
        | _ => stepLoop jobId step fuel next

/-- `_job_worker` in step-function mode: run the loop; if it breaks out
(`next_count == 0`), execution falls through to the unconditional
`_JOB_QUEUE.put((job_id, 'finish', None))`, so a `finish` message follows
the `error` already enqueued by the break branch; if an exception
propagated, the outer handler enqueues a single `error` message; if fuel
ran out, the loop is still live and nothing terminal is enqueued yet. -/
def jobWorkerStep (jobId : Nat) (step : Nat → Except String (Nat × PyVal)) (fuel : Nat) :
    List Msg :=
  match stepLoop jobId step fuel 0 with
  | (msgs, LoopOutcome.running) => msgs
  | (msgs, LoopOutcome.broke) => msgs ++ [⟨jobId, MsgKind.finish, PyVal.vNone⟩]
  | (msgs, LoopOutcome.raised e) => msgs ++ [⟨jobId, MsgKind.error, PyVal.vStr e⟩]

/-- A message is terminal when its kind is `error` or `finish`. -/
def isTerminal (m : Msg) : Bool :=
  match m.kind with
  | MsgKind.error => true
  | MsgKind.finish => true
  | _ => false

/-- Number of terminal messages in a list. -/
def terminalCount (msgs : List Msg) : Nat :=
  (msgs.filter isTerminal).length

/-- The callback dict a caller supplies to `start_async_job`, modelled by
which of the optional keys it has, what each callback invocation raises
(if anything), the value `on_error` returns (`process_queue` discards
it), and the optional `status_message` entry. -/
structure Callbacks where
  hasOnChunk : Bool
  chunkRaises : PyVal → Option String
  hasOnThought : Bool
  thoughtRaises : PyVal → Option String
  hasOnFinish : Bool
  finishRaises : Option String
  hasOnError : Bool
  errorRaises : PyVal → Option String
  errorReturns : PyVal → PyVal
  statusMessage : Option String

/-- Truth of `not callbacks` in `process_queue`: an empty dict (no keys
at all) is falsy and is skipped exactly like an absent registry entry. -/
def Callbacks.falsy (c : Callbacks) : Bool :=
  !c.hasOnChunk && !c.hasOnThought && !c.hasOnFinish && !c.hasOnError &&
    c.statusMessage.isNone

/-- One callback invocation performed by `process_queue`. -/
inductive Event where
  | chunk : Nat → PyVal → Event
  | thought : Nat → PyVal → Event
  | finish : Nat → Event
  | error : Nat → PyVal → Event
  deriving DecidableEq

/-- Python `str()` of a payload as used by the f-string building the
error status text (the exact repr of a stream object is irrelevant to
every claim). -/
def pyStrOf : PyVal → String
  | PyVal.vNone => "None"
  | PyVal.vStr s => s
  | PyVal.vStream _ => "<generator object>"

/-- `f"[{job_id}] {s}"`. -/
def statusTag (id : Nat) (s : String) : String :=
  "[" ++ toString id ++ "] " ++ s

/-- `dict.get(id)` on an id-keyed dict modelled as an association list. -/
def lookupKey {α : Type} : List (Nat × α) → Nat → Option α
  | [], _ => none
  | p :: rest, id => if p.1 = id then some p.2 else lookupKey rest id

/-- `del dict[id]` on an id-keyed dict modelled as an association list. -/
def removeKey {α : Type} : List (Nat × α) → Nat → List (Nat × α)
  | [], _ => []
  | p :: rest, id => if p.1 = id then removeKey rest id else p :: removeKey rest id

/-- What dispatching a single drained message does: the callback
invocations performed, the `status_update` value after this message
(given the one before it), whether the `del _ACTIVE_JOBS[job_id]` /
`del _JOB_NAMES[job_id]` lines ran, and the exception (if any) the
invoked callback raised.  Mirrors the `if/elif` chain of
`process_queue`: `chunk`/`thought` update the status only after a
successful callback; the `error` branch sets
`(f"[{job_id}] [{job_id}] Error: {data}", True)` before calling
`on_error` and discards `on_error`'s return value; the `finish` branch
sets `(f"[{job_id}] Finished.", False)` before calling `on_finish`; a
raising callback skips the deletions that follow it. -/
def dispatchMsg (cb : Callbacks) (m : Msg) (status : Option (String × Bool)) :
    List Event × Option (String × Bool) × Bool × Option String :=
  let displayStatus := statusTag m.jobId (cb.statusMessage.getD "Processing...")
  match m.kind with
  | MsgKind.chunk =>
    if cb.hasOnChunk then
      match cb.chunkRaises m.payload with
      | some e => ([Event.chunk m.jobId m.payload], status, false, some e)
      | none => ([Event.chunk m.jobId m.payload], some (displayStatus, false), false, none)
    else ([], status, false, none)
  | MsgKind.thought =>
    if cb.hasOnThought then
      match cb.thoughtRaises m.payload with
      | some e => ([Event.thought m.jobId m.payload], status, false, some e)
      | none => ([Event.thought m.jobId m.payload], some (displayStatus, false), false, none)
    else ([], status, false, none)
  | MsgKind.error =>
    let errStatus := statusTag m.jobId (statusTag m.jobId ("Error: " ++ pyStrOf m.payload))
    if cb.hasOnError then
      match cb.errorRaises m.payload with
      | some e => ([Event.error m.jobId m.payload], some (errStatus, true), false, some e)
      | none => ([Event.error m.jobId m.payload], some (errStatus, true), true, none)
    else ([], some (errStatus, true), true, none)
  | MsgKind.finish =>
    let finStatus := (statusTag m.jobId "Finished.", false)
    if cb.hasOnFinish then
      match cb.finishRaises with
      | some e => ([Event.finish m.jobId], some finStatus, false, some e)
      | none => ([Event.finish m.jobId], some finStatus, true, none)
    else ([], some finStatus, true, none)

/-- Result of one `process_queue` invocation.  `raised` is the exception
a callback let escape (the poll aborts there: the remaining messages stay
on the queue in `remaining`, the final `display_message` and the
stop-timer check are skipped).  `statusUpdate` is the last
`status_update` value computed; when `raised = none` and it is `some`, it
is displayed.  `stopTimer` is whether
`vim.command("call ViminiInternalStopJobTimer()")` runs. -/
structure PollResult where
  events : List Event
  jobs : List (Nat × Callbacks)
  names : List (Nat × String)
  statusUpdate : Option (String × Bool)
  stopTimer : Bool
  raised : Option String
  remaining : List Msg

/-- The drain loop of `process_queue` over the messages pending at
entry: pop a message, look its job up in `_ACTIVE_JOBS`, skip it when the
entry is absent or falsy, otherwise dispatch it and, unless the callback
raised, delete the job from the registry and the names map when the
message was terminal, then continue with the rest. -/
def processQueueAux (jobs : List (Nat × Callbacks)) (names : List (Nat × String))
    (status : Option (String × Bool)) : List Msg → PollResult
  | [] => ⟨[], jobs, names, status, jobs.isEmpty, none, []⟩
  | m :: rest =>
    match lookupKey jobs m.jobId with
    | none => processQueueAux jobs names status rest
    | some cb =>
      if cb.falsy then processQueueAux jobs names status rest
      else
        match dispatchMsg cb m status with
        | (evs, status2, _, some e) =>
          ⟨evs, jobs, names, status2, false, some e, rest⟩
        | (evs, status2, removed, none) =>
          let jobs2 := if removed then removeKey jobs m.jobId else jobs
          let names2 := if removed then removeKey names m.jobId else names
          let r := processQueueAux jobs2 names2 status2 rest
          ⟨evs ++ r.events, r.jobs, r.names, r.statusUpdate, r.stopTimer, r.raised, r.remaining⟩

/-- `process_queue()` on the messages pending on `_JOB_QUEUE` at entry,
with `_ACTIVE_JOBS = jobs` and `_JOB_NAMES = names`; `status_update`
starts as `None`. -/
def process_queue (queueMsgs : List Msg) (jobs : List (Nat × Callbacks))
    (names : List (Nat × String)) : PollResult :=
  processQueueAux jobs names none queueMsgs

/-- The per-process id/name/client state of the job manager:
`_JOB_COUNTER`, `_JOB_NAMES`, `_JOB_CLIENTS` (client handles abstracted
to numbers). -/
structure ManagerState where
  counter : Nat
  names : List (Nat × String)
  clients : List (Nat × Nat)

/-- `reserve_next_job_id(job_name, client)` (util.py lines 354-363):
increment `_JOB_COUNTER`, record the name, record the client when one is
given (truthy), and return the new counter value. -/
def reserve_next_job_id (st : ManagerState) (jobName : String) (client : Option Nat) :
    Nat × ManagerState :=
  let c := st.counter + 1
  (c, ⟨c, (c, jobName) :: st.names,
    match client with
    | some cl => (c, cl) :: st.clients
    | none => st.clients⟩)

/-- The `job_id is None` branch of `start_async_job` (lines 385-387):
a fresh id is obtained by calling `reserve_next_job_id`. -/
def startAsyncJobFreshId (st : ManagerState) (jobName : String) (client : Option Nat) :
    Nat × ManagerState :=
  reserve_next_job_id st jobName client

/-- One id-reserving call: `reserve_next_job_id` directly, or
`start_async_job` without an explicit `job_id`. -/
inductive ReserveCall where
  | direct : String → Option Nat → ReserveCall
  | viaStart : String → Option Nat → ReserveCall

/-- Run a sequence of id-reserving calls, collecting the returned ids. -/
def runReserveCalls (st : ManagerState) : List ReserveCall → List Nat × ManagerState
  | [] => ([], st)
  | c :: rest =>
    let r := match c with
      | ReserveCall.direct n cl => reserve_next_job_id st n cl
      | ReserveCall.viaStart n cl => startAsyncJobFreshId st n cl
    let rr := runReserveCalls r.2 rest
    (r.1 :: rr.1, rr.2)

/-! ### Helper lemmas -/

theorem terminalCount_nil : terminalCount [] = 0 := rfl

theorem terminalCount_append (a b : List Msg) :
    terminalCount (a ++ b) = terminalCount a + terminalCount b := by
  simp [terminalCount, List.filter_append]

theorem terminalCount_partMsgs (j : Nat) (p : Part) :
    terminalCount (partMsgs j p) = 0 := by
  unfold partMsgs
  split
  · rfl
  · split
    · rfl
    · split
      · rfl
      · cases hp : p.thought <;> simp [hp, terminalCount, isTerminal]

theorem terminalCount_partsMsgs (j : Nat) (ps : List Part) :
    terminalCount (partsMsgs j ps) = 0 := by
  induction ps with
  | nil => rfl
  | cons p rest ih =>
    simp [partsMsgs, terminalCount_append, terminalCount_partMsgs, ih]

theorem terminalCount_chunkMsgs (j : Nat) (c : RespChunk) :
    terminalCount (chunkMsgs j c) = 0 := by
  cases c with
  | cands cs =>
    cases cs with
    | nil => rfl
    | cons cand rest =>
      cases hc : cand.content with
      | none => simp [chunkMsgs, hc, terminalCount]
      | some ps => simp [chunkMsgs, hc, terminalCount_partsMsgs]
  | textOnly t => cases t <;> simp [chunkMsgs, terminalCount, isTerminal]
  | blank => rfl

theorem terminalCount_streamMsgs (j : Nat) (cs : List RespChunk) :
    terminalCount (streamMsgs j cs) = 0 := by
  induction cs with
  | nil => rfl
  | cons c rest ih =>
    simp [streamMsgs, terminalCount_append, terminalCount_chunkMsgs, ih]

/-- Case analysis of the step-function loop: while running or after an
exception escaped the loop body, the loop itself has enqueued no terminal
message; when it broke out via `next_count == 0`, its messages are
non-terminal ones followed by exactly one `error`. -/
theorem stepLoop_cases (j : Nat) (step : Nat → Except String (Nat × PyVal)) :
    ∀ fuel count,
      ((stepLoop j step fuel count).2 = LoopOutcome.running →
        terminalCount (stepLoop j step fuel count).1 = 0) ∧
      (∀ e, (stepLoop j step fuel count).2 = LoopOutcome.raised e →
        terminalCount (stepLoop j step fuel count).1 = 0) ∧
      ((stepLoop j step fuel count).2 = LoopOutcome.broke →
        ∃ pre p, (stepLoop j step fuel count).1 = pre ++ [⟨j, MsgKind.error, p⟩] ∧
          terminalCount pre = 0) := by
  intro fuel
  induction fuel with
  | zero =>
    intro count
    refine ⟨?_, ?_, ?_⟩ <;> simp [stepLoop, terminalCount]
  | succ fuel ih =>
    intro count
    cases hstep : step count with
    | error e =>
      have hred : stepLoop j step (fuel + 1) count = ([], LoopOutcome.raised e) := by
        simp [stepLoop, hstep]
      rw [hred]
      refine ⟨?_, ?_, ?_⟩ <;> simp [terminalCount]
    | ok pr =>
      obtain ⟨next, payload⟩ := pr
      by_cases hnext : next = 0
      · have hred : stepLoop j step (fuel + 1) count
            = ([⟨j, MsgKind.error, payload⟩], LoopOutcome.broke) := by
          simp [stepLoop, hstep, hnext]
        rw [hred]
        refine ⟨?_, ?_, ?_⟩
        · intro hout; cases hout
        · intro e hout; cases hout
        · intro _
          exact ⟨[], payload, rfl, rfl⟩
      · cases payload with
        | vStream s =>
          cases hra : s.raisesAfter with
          | some e =>
            have hred : stepLoop j step (fuel + 1) count
                = (streamMsgs j s.chunks, LoopOutcome.raised e) := by
              simp [stepLoop, hstep, hnext, handleResponseStream, hra]
            rw [hred]
            refine ⟨?_, ?_, ?_⟩
            · intro hout; cases hout
            · intro e2 hout
              exact terminalCount_streamMsgs j s.chunks
            · intro hout; cases hout
          | none =>
            rcases hsl : stepLoop j step fuel next with ⟨rest, out⟩
            obtain ⟨ih1, ih2, ih3⟩ := ih next
            rw [hsl] at ih1 ih2 ih3
            simp only at ih1 ih2 ih3
            have hred : stepLoop j step (fuel + 1) count
                = (streamMsgs j s.chunks ++ rest, out) := by
              simp [stepLoop, hstep, hnext, handleResponseStream, hra, hsl]
            rw [hred]
            refine ⟨?_, ?_, ?_⟩
            · intro hout
              simp only at hout
              rw [terminalCount_append, terminalCount_streamMsgs, ih1 hout]
            · intro e hout
              simp only at hout
              rw [terminalCount_append, terminalCount_streamMsgs, ih2 e hout]
            · intro hout
              simp only at hout
              obtain ⟨pre, p, hrest, hpre⟩ := ih3 hout
              refine ⟨streamMsgs j s.chunks ++ pre, p, ?_, ?_⟩
              · simp only
                rw [hrest, List.append_assoc]
              · rw [terminalCount_append, terminalCount_streamMsgs, hpre]
        | vNone =>
          have hred : stepLoop j step (fuel + 1) count = stepLoop j step fuel next := by
            simp [stepLoop, hstep, hnext]
          rw [hred]
          exact ih next
        | vStr t =>
          have hred : stepLoop j step (fuel + 1) count = stepLoop j step fuel next := by
            simp [stepLoop, hstep, hnext]
          rw [hred]
          exact ih next

theorem lookupKey_ne_nil {α : Type} {l : List (Nat × α)} {i : Nat} {a : α}
    (h : lookupKey l i = some a) : l ≠ [] := by
  intro he
  subst he
  simp [lookupKey] at h

/-! ### C1 -/

/-- C1 counterexample: in step-function mode, a step function that
signals termination by returning counter 0 on its first call makes the
worker enqueue an `error` message and then also a `finish` message for
the same job: two terminal messages, violating "exactly one terminal
message (`error` xor `finish`, never both)". -/
theorem C1_counterexample :
    jobWorkerStep 1 (fun _ => Except.ok (0, PyVal.vStr "bye")) 1
      = [⟨1, MsgKind.error, PyVal.vStr "bye"⟩, ⟨1, MsgKind.finish, PyVal.vNone⟩] ∧
    terminalCount (jobWorkerStep 1 (fun _ => Except.ok (0, PyVal.vStr "bye")) 1) = 2 := by
  exact ⟨rfl, rfl⟩

/-- C1 amended: in simple streaming mode the worker enqueues zero or
more non-terminal messages followed by exactly one terminal message,
including when the producer raises at any point.  In step-function mode,
if an exception ends the loop, exactly one terminal (`error`) message is
enqueued after non-terminal ones, and while the loop is still running no
terminal message has been enqueued; but when the step function signals
termination by returning counter 0, the worker enqueues an `error`
message and then additionally a `finish` message (two terminal messages
for the job, the `error` first). -/
theorem C1_amended :
    (∀ (j : Nat) (producer : Except String StreamData),
      ∃ pre m, jobWorkerSimple j producer = pre ++ [m] ∧
        terminalCount pre = 0 ∧ isTerminal m = true) ∧
    (∀ (j : Nat) (step : Nat → Except String (Nat × PyVal)) (fuel : Nat),
      ((stepLoop j step fuel 0).2 = LoopOutcome.running →
        terminalCount (jobWorkerStep j step fuel) = 0) ∧
      (∀ e, (stepLoop j step fuel 0).2 = LoopOutcome.raised e →
        terminalCount (jobWorkerStep j step fuel) = 1) ∧
      ((stepLoop j step fuel 0).2 = LoopOutcome.broke →
        ∃ pre p, jobWorkerStep j step fuel
            = pre ++ [⟨j, MsgKind.error, p⟩, ⟨j, MsgKind.finish, PyVal.vNone⟩] ∧
          terminalCount pre = 0 ∧ terminalCount (jobWorkerStep j step fuel) = 2)) := by
  constructor
  · intro j producer
    cases producer with
    | error e =>
      exact ⟨[], ⟨j, MsgKind.error, PyVal.vStr e⟩, rfl, rfl, rfl⟩
    | ok s =>
      cases hra : s.raisesAfter with
      | some e =>
        refine ⟨streamMsgs j s.chunks, ⟨j, MsgKind.error, PyVal.vStr e⟩, ?_,
          terminalCount_streamMsgs j s.chunks, rfl⟩
        simp [jobWorkerSimple, handleResponseStream, hra]
      | none =>
        refine ⟨streamMsgs j s.chunks, ⟨j, MsgKind.finish, PyVal.vNone⟩, ?_,
          terminalCount_streamMsgs j s.chunks, rfl⟩
        simp [jobWorkerSimple, handleResponseStream, hra]
  · intro j step fuel
    obtain ⟨h1, h2, h3⟩ := stepLoop_cases j step fuel 0
    rcases hsl : stepLoop j step fuel 0 with ⟨msgs, out⟩
    rw [hsl] at h1 h2 h3
    simp only at h1 h2 h3
    refine ⟨?_, ?_, ?_⟩
    · intro hout
      simp only at hout
      subst hout
      have hred : jobWorkerStep j step fuel = msgs := by
        simp [jobWorkerStep, hsl]
      rw [hred]
      exact h1 rfl
    · intro e hout
      simp only at hout
      subst hout
      have hred : jobWorkerStep j step fuel
          = msgs ++ [⟨j, MsgKind.error, PyVal.vStr e⟩] := by
        simp [jobWorkerStep, hsl]
      rw [hred, terminalCount_append, h2 e rfl]
      rfl
    · intro hout
      simp only at hout
      subst hout
      obtain ⟨pre, p, hmsgs, hpre⟩ := h3 rfl
      have hred : jobWorkerStep j step fuel
          = (pre ++ [⟨j, MsgKind.error, p⟩]) ++ [⟨j, MsgKind.finish, PyVal.vNone⟩] := by
        simp [jobWorkerStep, hsl, hmsgs]
      refine ⟨pre, p, ?_, hpre, ?_⟩
      · rw [hred, List.append_assoc]
        rfl
      · rw [hred, terminalCount_append, terminalCount_append, hpre]
        rfl

/-- C1 amended witness: concrete instances of both modes — an empty
successful stream yields exactly one terminal message, and a step
function returning counter 0 at once yields the error-then-finish pair. -/
theorem C1_amended_witness :
    (∃ pre m, jobWorkerSimple 1 (Except.ok ⟨[], none⟩) = pre ++ [m] ∧
      terminalCount pre = 0 ∧ isTerminal m = true) ∧
    (∃ pre p, jobWorkerStep 2 (fun _ => Except.ok (0, PyVal.vStr "done")) 1
        = pre ++ [⟨2, MsgKind.error, p⟩, ⟨2, MsgKind.finish, PyVal.vNone⟩] ∧
      terminalCount pre = 0 ∧
      terminalCount (jobWorkerStep 2 (fun _ => Except.ok (0, PyVal.vStr "done")) 1) = 2) :=
  ⟨C1_amended.1 1 (Except.ok ⟨[], none⟩),
    (C1_amended.2 2 (fun _ => Except.ok (0, PyVal.vStr "done")) 1).2.2 (by decide)⟩

/-! ### C4 -/

theorem reserve_counter_eq (st : ManagerState) (n : String) (cl : Option Nat) :
    (reserve_next_job_id st n cl).2.counter = st.counter + 1 := by
  cases cl <;> rfl

/-- Every id returned by a sequence of reserving calls exceeds the
starting counter, and the returned ids are strictly increasing. -/
theorem runReserveCalls_increasing (calls : List ReserveCall) :
    ∀ st : ManagerState,
      (∀ i ∈ (runReserveCalls st calls).1, st.counter < i) ∧
      (runReserveCalls st calls).1.Pairwise (· < ·) := by
  induction calls with
  | nil => intro st; simp [runReserveCalls]
  | cons c rest ih =>
    intro st
    cases c with
    | direct n cl =>
      obtain ⟨ihmem, ihpw⟩ := ih (reserve_next_job_id st n cl).2
      rw [reserve_counter_eq] at ihmem
      constructor
      · intro i hi
        simp only [runReserveCalls, List.mem_cons] at hi
        rcases hi with hi | hi
        · subst hi; exact Nat.lt_succ_self _
        · exact Nat.lt_of_succ_lt (ihmem i hi)
      · simp only [runReserveCalls]
        exact List.Pairwise.cons (fun i hi => ihmem i hi) ihpw
    | viaStart n cl =>
      obtain ⟨ihmem, ihpw⟩ := ih (reserve_next_job_id st n cl).2
      rw [reserve_counter_eq] at ihmem
      constructor
      · intro i hi
        simp only [runReserveCalls, startAsyncJobFreshId, List.mem_cons] at hi
        rcases hi with hi | hi
        · subst hi; exact Nat.lt_succ_self _
        · exact Nat.lt_of_succ_lt (ihmem i hi)
      · simp only [runReserveCalls, startAsyncJobFreshId]
        exact List.Pairwise.cons (fun i hi => ihmem i hi) ihpw

/-- C4: for any sequence of calls to `reserve_next_job_id` (directly or
through `start_async_job` without an explicit job id) from any manager
state, the returned job ids are strictly increasing in call order and
pairwise distinct. -/
theorem C4_ids_distinct_increasing (st : ManagerState) (calls : List ReserveCall) :
    (runReserveCalls st calls).1.Pairwise (· < ·) ∧
      (runReserveCalls st calls).1.Nodup :=
  ⟨(runReserveCalls_increasing calls st).2,
    ((runReserveCalls_increasing calls st).2).imp fun h => Nat.ne_of_lt h⟩

/-! ### C8 -/

theorem processQueueAux_stop (msgs : List Msg) :
    ∀ (jobs : List (Nat × Callbacks)) (names : List (Nat × String))
      (status : Option (String × Bool)),
      ((processQueueAux jobs names status msgs).stopTimer = true ↔
        (processQueueAux jobs names status msgs).jobs = []) := by
  induction msgs with
  | nil =>
    intro jobs names status
    simp [processQueueAux, List.isEmpty_iff]
  | cons m rest ih =>
    intro jobs names status
    cases hl : lookupKey jobs m.jobId with
    | none =>
      simpa only [processQueueAux, hl] using ih jobs names status
    | some cb =>
      by_cases hf : cb.falsy
      · simpa only [processQueueAux, hl, hf, if_pos hf] using ih jobs names status
      · rcases hd : dispatchMsg cb m status with ⟨evs, status2, removed, raised⟩
        cases raised with
        | some e =>
          simp only [processQueueAux, hl, if_neg hf, hd]
          simp only [Bool.false_eq_true, false_iff]
          exact lookupKey_ne_nil hl
        | none =>
          simp only [processQueueAux, hl, if_neg hf, hd]
          exact ih _ _ _

/-- C8: a `process_queue` invocation signals the host to stop the
recurring timer exactly when the job registry is empty after the drain;
a poll that leaves the registry non-empty (including one aborted by a
raising callback, whose job is still registered) never signals stop. -/
theorem C8_stop_iff_registry_empty (queueMsgs : List Msg)
    (jobs : List (Nat × Callbacks)) (names : List (Nat × String)) :
    ((process_queue queueMsgs jobs names).stopTimer = true ↔
      (process_queue queueMsgs jobs names).jobs = []) :=
  processQueueAux_stop queueMsgs jobs names none

/-! ### Concrete callback records used by witnesses and counterexamples -/

/-- A callback dict with all four hooks and a status message; no hook
raises; `on_error` returns the string "custom status". -/
def cbAll : Callbacks :=
  { hasOnChunk := true, chunkRaises := fun _ => none,
    hasOnThought := true, thoughtRaises := fun _ => none,
    hasOnFinish := true, finishRaises := none,
    hasOnError := true, errorRaises := fun _ => none,
    errorReturns := fun _ => PyVal.vStr "custom status",
    statusMessage := some "Working" }

/-- Like `cbAll`, except `on_chunk` raises "cbboom" on every invocation. -/
def cbChunkBoom : Callbacks :=
  { cbAll with chunkRaises := fun _ => some "cbboom" }

/-! ### C2 -/

/-- C2 counterexample: with job 1's `on_chunk` raising and a pending
chunk message of job 2 behind job 1's message, the poll dispatches job
1's chunk, the exception escapes `process_queue`, job 2's message is
never dispatched in this poll and stays on the queue — callback
invocations are not isolated. -/
theorem C2_counterexample :
    (process_queue [⟨1, MsgKind.chunk, PyVal.vStr "x"⟩, ⟨2, MsgKind.chunk, PyVal.vStr "y"⟩]
        [(1, cbChunkBoom), (2, cbAll)] []).events = [Event.chunk 1 (PyVal.vStr "x")] ∧
    Event.chunk 2 (PyVal.vStr "y") ∉
      (process_queue [⟨1, MsgKind.chunk, PyVal.vStr "x"⟩, ⟨2, MsgKind.chunk, PyVal.vStr "y"⟩]
        [(1, cbChunkBoom), (2, cbAll)] []).events ∧
    (process_queue [⟨1, MsgKind.chunk, PyVal.vStr "x"⟩, ⟨2, MsgKind.chunk, PyVal.vStr "y"⟩]
        [(1, cbChunkBoom), (2, cbAll)] []).remaining
      = [⟨2, MsgKind.chunk, PyVal.vStr "y"⟩] ∧
    (process_queue [⟨1, MsgKind.chunk, PyVal.vStr "x"⟩, ⟨2, MsgKind.chunk, PyVal.vStr "y"⟩]
        [(1, cbChunkBoom), (2, cbAll)] []).raised = some "cbboom" := by
  refine ⟨rfl, by decide, rfl, rfl⟩

/-- Resume a drain from the registry, names and status state a partial
result left behind. -/
def contPoll (r : PollResult) (more : List Msg) : PollResult :=
  processQueueAux r.jobs r.names r.statusUpdate more

/-- Draining `pre ++ more` is draining `pre` and then continuing with
`more` from the state `pre` left, provided no callback raised while
draining `pre`; the combined events are the concatenation. -/
theorem processQueueAux_append (pre more : List Msg) :
    ∀ (jobs : List (Nat × Callbacks)) (names : List (Nat × String))
      (status : Option (String × Bool)),
      (processQueueAux jobs names status pre).raised = none →
      processQueueAux jobs names status (pre ++ more)
        = { contPoll (processQueueAux jobs names status pre) more with
            events := (processQueueAux jobs names status pre).events
              ++ (contPoll (processQueueAux jobs names status pre) more).events } := by
  induction pre with
  | nil =>
    intro jobs names status _
    rfl
  | cons m pre ih =>
    intro jobs names status h
    cases hl : lookupKey jobs m.jobId with
    | none =>
      simp only [List.cons_append, processQueueAux, hl] at h ⊢
      exact ih jobs names status h
    | some cb =>
      by_cases hf : cb.falsy
      · simp only [List.cons_append, processQueueAux, hl, if_pos hf] at h ⊢
        exact ih jobs names status h
      · rcases hd : dispatchMsg cb m status with ⟨evs, status2, removed, rai⟩
        cases rai with
        | some e =>
          exfalso
          simp [processQueueAux, hl, hf, hd] at h
        | none =>
          simp only [List.cons_append, processQueueAux, hl, if_neg hf, hd,
            List.append_eq] at h ⊢
          rw [ih _ _ _ h]
          simp [contPoll, List.append_assoc]

/-- C2 amended: `process_queue` does not isolate callback invocations.
If the callback invoked for a drained message raises — wherever that
message sits in the backlog — the exception escapes the poll invocation.
The messages drained before the raising one take full effect (their
callbacks run and terminal ones remove their jobs from the registry),
but the raising message itself removes nothing, and every message behind
it (other jobs' included) is left undispatched on the queue for a later
poll. -/
theorem C2_amended (pre : List Msg) (m : Msg) (rest : List Msg)
    (jobs : List (Nat × Callbacks)) (names : List (Nat × String))
    (cb : Callbacks) (e : String)
    (hpre : (processQueueAux jobs names none pre).raised = none)
    (hl : lookupKey (processQueueAux jobs names none pre).jobs m.jobId = some cb)
    (hf : cb.falsy = false)
    (hd : (dispatchMsg cb m (processQueueAux jobs names none pre).statusUpdate).2.2.2
      = some e) :
    (process_queue (pre ++ m :: rest) jobs names).raised = some e ∧
    (process_queue (pre ++ m :: rest) jobs names).remaining = rest ∧
    (process_queue (pre ++ m :: rest) jobs names).jobs
      = (processQueueAux jobs names none pre).jobs ∧
    (process_queue (pre ++ m :: rest) jobs names).events
      = (processQueueAux jobs names none pre).events
        ++ (dispatchMsg cb m (processQueueAux jobs names none pre).statusUpdate).1 := by
  unfold process_queue
  rw [processQueueAux_append pre (m :: rest) jobs names none hpre]
  rcases hd2 : dispatchMsg cb m (processQueueAux jobs names none pre).statusUpdate
    with ⟨evs, status2, removed, rai⟩
  rw [hd2] at hd
  simp only at hd
  subst hd
  simp [contPoll, processQueueAux, hl, hf, hd2]

/-- C2 amended witness: queue `[finish(1), chunk(2,"y"), chunk(2,"z")]`
with job 2's `on_chunk` raising — job 1's `on_finish` runs and job 1 is
removed before the exception, job 2 stays registered, and the second
chunk of job 2 stays on the queue. -/
theorem C2_amended_witness :
    (process_queue
        [⟨1, MsgKind.finish, PyVal.vNone⟩, ⟨2, MsgKind.chunk, PyVal.vStr "y"⟩,
          ⟨2, MsgKind.chunk, PyVal.vStr "z"⟩]
        [(1, cbAll), (2, cbChunkBoom)] []).raised = some "cbboom" ∧
    (process_queue
        [⟨1, MsgKind.finish, PyVal.vNone⟩, ⟨2, MsgKind.chunk, PyVal.vStr "y"⟩,
          ⟨2, MsgKind.chunk, PyVal.vStr "z"⟩]
        [(1, cbAll), (2, cbChunkBoom)] []).remaining
      = [⟨2, MsgKind.chunk, PyVal.vStr "z"⟩] ∧
    (process_queue
        [⟨1, MsgKind.finish, PyVal.vNone⟩, ⟨2, MsgKind.chunk, PyVal.vStr "y"⟩,
          ⟨2, MsgKind.chunk, PyVal.vStr "z"⟩]
        [(1, cbAll), (2, cbChunkBoom)] []).jobs = [(2, cbChunkBoom)] ∧
    (process_queue
        [⟨1, MsgKind.finish, PyVal.vNone⟩, ⟨2, MsgKind.chunk, PyVal.vStr "y"⟩,
          ⟨2, MsgKind.chunk, PyVal.vStr "z"⟩]
        [(1, cbAll), (2, cbChunkBoom)] []).events
      = [Event.finish 1, Event.chunk 2 (PyVal.vStr "y")] := by
  have h := C2_amended [⟨1, MsgKind.finish, PyVal.vNone⟩]
    ⟨2, MsgKind.chunk, PyVal.vStr "y"⟩ [⟨2, MsgKind.chunk, PyVal.vStr "z"⟩]
    [(1, cbAll), (2, cbChunkBoom)] [] cbChunkBoom "cbboom" rfl rfl rfl rfl
  exact ⟨h.1, h.2.1, h.2.2.1.trans rfl, h.2.2.2.trans rfl⟩

/-! ### C9 -/

/-- A callback dict none of whose hooks raises when invoked. -/
def benignCb (c : Callbacks) : Prop :=
  (∀ d, c.chunkRaises d = none) ∧ (∀ d, c.thoughtRaises d = none) ∧
    c.finishRaises = none ∧ (∀ d, c.errorRaises d = none)

theorem dispatchMsg_benign (cb : Callbacks) (m : Msg)
    (status : Option (String × Bool)) (hb : benignCb cb) :
    (dispatchMsg cb m status).2.2.2 = none := by
  obtain ⟨h1, h2, h3, h4⟩ := hb
  rcases m with ⟨id, kind, payload⟩
  cases kind <;> simp only [dispatchMsg] <;> split <;> simp [h1, h2, h3, h4]

theorem lookupKey_benign {jobs : List (Nat × Callbacks)} {i : Nat} {cb : Callbacks}
    (hb : ∀ p ∈ jobs, benignCb p.2) (h : lookupKey jobs i = some cb) : benignCb cb := by
  induction jobs with
  | nil => simp [lookupKey] at h
  | cons p rest ih =>
    simp only [lookupKey] at h
    split at h
    · injection h with h2
      rw [← h2]
      exact hb p (List.mem_cons_self p rest)
    · exact ih (fun q hq => hb q (List.mem_cons_of_mem _ hq)) h

theorem mem_removeKey {α : Type} {l : List (Nat × α)} {i : Nat} {p : Nat × α}
    (h : p ∈ removeKey l i) : p ∈ l := by
  induction l with
  | nil => simp [removeKey] at h
  | cons q rest ih =>
    simp only [removeKey] at h
    split at h
    · exact List.mem_cons_of_mem _ (ih h)
    · rcases List.mem_cons.mp h with h | h
      · rw [h]; exact List.mem_cons_self q rest
      · exact List.mem_cons_of_mem _ (ih h)

theorem processQueueAux_drains (msgs : List Msg) :
    ∀ (jobs : List (Nat × Callbacks)) (names : List (Nat × String))
      (status : Option (String × Bool)), (∀ p ∈ jobs, benignCb p.2) →
      (processQueueAux jobs names status msgs).raised = none ∧
      (processQueueAux jobs names status msgs).remaining = [] := by
  induction msgs with
  | nil =>
    intro jobs names status _
    exact ⟨rfl, rfl⟩
  | cons m rest ih =>
    intro jobs names status hb
    cases hl : lookupKey jobs m.jobId with
    | none =>
      simpa only [processQueueAux, hl] using ih jobs names status hb
    | some cb =>
      by_cases hf : cb.falsy
      · simpa only [processQueueAux, hl, if_pos hf] using ih jobs names status hb
      · rcases hd : dispatchMsg cb m status with ⟨evs, status2, removed, rai⟩
        have hrai : rai = none := by
          have := dispatchMsg_benign cb m status (lookupKey_benign hb hl)
          rw [hd] at this
          exact this
        subst hrai
        have hb2 : ∀ p ∈ (if removed then removeKey jobs m.jobId else jobs), benignCb p.2 := by
          intro p hp
          cases removed with
          | true => exact hb p (mem_removeKey (by simpa using hp))
          | false => exact hb p (by simpa using hp)
        simp only [processQueueAux, hl, if_neg hf, hd]
        exact ih _ _ _ hb2

/-- C9 amended: provided no dispatched callback raises, a single
`process_queue` invocation drains every message pending at entry and
returns with none of them left; when a callback does raise, the poll
aborts and the undispatched tail stays on the queue (see the
counterexample). -/
theorem C9_amended (queueMsgs : List Msg) (jobs : List (Nat × Callbacks))
    (names : List (Nat × String)) (hb : ∀ p ∈ jobs, benignCb p.2) :
    (process_queue queueMsgs jobs names).remaining = [] ∧
    (process_queue queueMsgs jobs names).raised = none :=
  ⟨(processQueueAux_drains queueMsgs jobs names none hb).2,
    (processQueueAux_drains queueMsgs jobs names none hb).1⟩

/-- C9 amended witness: a concrete benign registry with a three-message
backlog is drained completely in one poll. -/
theorem C9_amended_witness :
    (process_queue
      [⟨1, MsgKind.chunk, PyVal.vStr "a"⟩, ⟨1, MsgKind.chunk, PyVal.vStr "b"⟩,
        ⟨1, MsgKind.finish, PyVal.vNone⟩] [(1, cbAll)] []).remaining = [] ∧
    (process_queue
      [⟨1, MsgKind.chunk, PyVal.vStr "a"⟩, ⟨1, MsgKind.chunk, PyVal.vStr "b"⟩,
        ⟨1, MsgKind.finish, PyVal.vNone⟩] [(1, cbAll)] []).raised = none :=
  C9_amended _ _ _ (by
    intro p hp
    simp only [List.mem_singleton] at hp
    subst hp
    exact ⟨fun d => rfl, fun d => rfl, rfl, fun d => rfl⟩)

/-- C9 counterexample: with `on_chunk` raising on the first of two
pending messages, the poll returns (by exception) with the second
message still on the queue — the queue is not emptied of the messages
pending at entry. -/
theorem C9_counterexample :
    (process_queue [⟨1, MsgKind.chunk, PyVal.vStr "a"⟩, ⟨1, MsgKind.chunk, PyVal.vStr "b"⟩]
        [(1, cbChunkBoom)] []).remaining = [⟨1, MsgKind.chunk, PyVal.vStr "b"⟩] ∧
    (process_queue [⟨1, MsgKind.chunk, PyVal.vStr "a"⟩, ⟨1, MsgKind.chunk, PyVal.vStr "b"⟩]
        [(1, cbChunkBoom)] []).remaining ≠ [] := by
  refine ⟨rfl, by decide⟩

/-! ### C3 -/

theorem streamMsgs_textOnly (j : Nat) (ts : List String) :
    streamMsgs j (ts.map (fun t => RespChunk.textOnly (some t)))
      = ts.map (fun t => ⟨j, MsgKind.chunk, PyVal.vStr t⟩) := by
  induction ts with
  | nil => rfl
  | cons t rest ih => simp [streamMsgs, chunkMsgs, ih]

theorem processQueueAux_fifo (j : Nat) (cb : Callbacks) (names : List (Nat × String))
    (h1 : cb.hasOnChunk = true) (h2 : cb.hasOnFinish = true)
    (h3 : ∀ d, cb.chunkRaises d = none) (h4 : cb.finishRaises = none) :
    ∀ (ts : List String) (status : Option (String × Bool)),
      (processQueueAux [(j, cb)] names status
          (ts.map (fun t => ⟨j, MsgKind.chunk, PyVal.vStr t⟩)
            ++ [⟨j, MsgKind.finish, PyVal.vNone⟩])).events
        = ts.map (fun t => Event.chunk j (PyVal.vStr t)) ++ [Event.finish j] := by
  intro ts
  induction ts with
  | nil =>
    intro status
    simp [processQueueAux, lookupKey, dispatchMsg, Callbacks.falsy, removeKey,
      h1, h2, h4]
  | cons t rest ih =>
    intro status
    simp [processQueueAux, lookupKey, dispatchMsg, Callbacks.falsy, h1, h3, ih]

/-- C3: when a job's worker streams the text fragments `ts` in order and
the stream ends normally, the worker enqueues one `chunk` message per
fragment in producer order followed by a single `finish`, and a single
poll-draining run with that job registered (its `on_chunk`/`on_finish`
present and not raising) invokes `on_chunk` once per fragment in exactly
that order and then `on_finish`, with no reordering, duplication, or
omission. -/
theorem C3_fifo_per_job (j : Nat) (cb : Callbacks) (names : List (Nat × String))
    (ts : List String)
    (h1 : cb.hasOnChunk = true) (h2 : cb.hasOnFinish = true)
    (h3 : ∀ d, cb.chunkRaises d = none) (h4 : cb.finishRaises = none) :
    jobWorkerSimple j (Except.ok ⟨ts.map (fun t => RespChunk.textOnly (some t)), none⟩)
      = ts.map (fun t => ⟨j, MsgKind.chunk, PyVal.vStr t⟩)
        ++ [⟨j, MsgKind.finish, PyVal.vNone⟩] ∧
    (process_queue
        (jobWorkerSimple j
          (Except.ok ⟨ts.map (fun t => RespChunk.textOnly (some t)), none⟩))
        [(j, cb)] names).events
      = ts.map (fun t => Event.chunk j (PyVal.vStr t)) ++ [Event.finish j] := by
  have hw : jobWorkerSimple j
      (Except.ok ⟨ts.map (fun t => RespChunk.textOnly (some t)), none⟩)
        = ts.map (fun t => ⟨j, MsgKind.chunk, PyVal.vStr t⟩)
          ++ [⟨j, MsgKind.finish, PyVal.vNone⟩] := by
    simp [jobWorkerSimple, handleResponseStream, streamMsgs_textOnly]
  refine ⟨hw, ?_⟩
  rw [hw]
  exact processQueueAux_fifo j cb names h1 h2 h3 h4 ts none

/-- C3 witness: fragments "a", "b", "c" then finish, dispatched to a
full, non-raising callback set, in exactly that order. -/
theorem C3_fifo_witness :
    jobWorkerSimple 1 (Except.ok ⟨["a", "b", "c"].map (fun t => RespChunk.textOnly (some t)), none⟩)
      = ["a", "b", "c"].map (fun t => ⟨1, MsgKind.chunk, PyVal.vStr t⟩)
        ++ [⟨1, MsgKind.finish, PyVal.vNone⟩] ∧
    (process_queue
        (jobWorkerSimple 1
          (Except.ok ⟨["a", "b", "c"].map (fun t => RespChunk.textOnly (some t)), none⟩))
        [(1, cbAll)] []).events
      = ["a", "b", "c"].map (fun t => Event.chunk 1 (PyVal.vStr t)) ++ [Event.finish 1] :=
  C3_fifo_per_job 1 cbAll [] ["a", "b", "c"] rfl rfl (fun _ => rfl) rfl

/-! ### C5 -/

/-- C5: in simple streaming mode, when the producer yields one chunk
whose only part carries the text "partial" and then raises an exception
with text `e`, the worker enqueues exactly the chunk message "partial"
followed by one `error` message carrying `e` and no `finish`; draining
those messages with the job's (non-raising) callbacks registered invokes
`on_chunk("partial")` then `on_error(e)` exactly once, never `on_finish`,
and removes the job. -/
theorem C5_raise_mid_stream (j : Nat) (e : String) (cb : Callbacks)
    (names : List (Nat × String))
    (h1 : cb.hasOnChunk = true) (h2 : cb.hasOnError = true)
    (h3 : ∀ d, cb.chunkRaises d = none) (h4 : ∀ d, cb.errorRaises d = none) :
    jobWorkerSimple j
        (Except.ok ⟨[RespChunk.cands [⟨some [⟨some "partial", false, false⟩]⟩]], some e⟩)
      = [⟨j, MsgKind.chunk, PyVal.vStr "partial"⟩, ⟨j, MsgKind.error, PyVal.vStr e⟩] ∧
    (process_queue
        [⟨j, MsgKind.chunk, PyVal.vStr "partial"⟩, ⟨j, MsgKind.error, PyVal.vStr e⟩]
        [(j, cb)] names).events
      = [Event.chunk j (PyVal.vStr "partial"), Event.error j (PyVal.vStr e)] ∧
    (process_queue
        [⟨j, MsgKind.chunk, PyVal.vStr "partial"⟩, ⟨j, MsgKind.error, PyVal.vStr e⟩]
        [(j, cb)] names).jobs = [] ∧
    Event.finish j ∉
      (process_queue
        [⟨j, MsgKind.chunk, PyVal.vStr "partial"⟩, ⟨j, MsgKind.error, PyVal.vStr e⟩]
        [(j, cb)] names).events := by
  have hev : (process_queue
      [⟨j, MsgKind.chunk, PyVal.vStr "partial"⟩, ⟨j, MsgKind.error, PyVal.vStr e⟩]
      [(j, cb)] names).events
        = [Event.chunk j (PyVal.vStr "partial"), Event.error j (PyVal.vStr e)] := by
    simp [process_queue, processQueueAux, lookupKey, Callbacks.falsy, dispatchMsg,
      removeKey, h1, h2, h3, h4]
  refine ⟨?_, hev, ?_, ?_⟩
  · simp [jobWorkerSimple, handleResponseStream, streamMsgs, chunkMsgs, partsMsgs,
      partMsgs]
  · simp [process_queue, processQueueAux, lookupKey, Callbacks.falsy, dispatchMsg,
      removeKey, h1, h2, h3, h4]
  · rw [hev]
    simp

/-- C5 witness: the scenario at job id 3, exception text "boom", with
the concrete full callback set. -/
theorem C5_raise_mid_stream_witness :
    jobWorkerSimple 3
        (Except.ok ⟨[RespChunk.cands [⟨some [⟨some "partial", false, false⟩]⟩]], some "boom"⟩)
      = [⟨3, MsgKind.chunk, PyVal.vStr "partial"⟩, ⟨3, MsgKind.error, PyVal.vStr "boom"⟩] ∧
    (process_queue
        [⟨3, MsgKind.chunk, PyVal.vStr "partial"⟩, ⟨3, MsgKind.error, PyVal.vStr "boom"⟩]
        [(3, cbAll)] []).events
      = [Event.chunk 3 (PyVal.vStr "partial"), Event.error 3 (PyVal.vStr "boom")] ∧
    (process_queue
        [⟨3, MsgKind.chunk, PyVal.vStr "partial"⟩, ⟨3, MsgKind.error, PyVal.vStr "boom"⟩]
        [(3, cbAll)] []).jobs = [] ∧
    Event.finish 3 ∉
      (process_queue
        [⟨3, MsgKind.chunk, PyVal.vStr "partial"⟩, ⟨3, MsgKind.error, PyVal.vStr "boom"⟩]
        [(3, cbAll)] []).events :=
  C5_raise_mid_stream 3 "boom" cbAll [] rfl rfl (fun _ => rfl) (fun _ => rfl)

/-! ### C6 -/

/-- C6 counterexample: `on_error` returns the string "custom status",
but the status text surfaced for the poll is the fixed
`"[7] [7] Error: boom"` built before the callback runs — the return
value of `on_error` is discarded by `process_queue`, not surfaced. -/
theorem C6_counterexample :
    cbAll.errorReturns (PyVal.vStr "boom") = PyVal.vStr "custom status" ∧
    (process_queue [⟨7, MsgKind.error, PyVal.vStr "boom"⟩] [(7, cbAll)] []).statusUpdate
      = some ("[7] [7] Error: boom", true) ∧
    "[7] [7] Error: boom" ≠ "custom status" := by
  refine ⟨rfl, rfl, by decide⟩

/-- C6 amended: draining an `error` message for a job whose callbacks
include a (non-raising) `on_error` invokes `on_error` with the error
payload and removes the job from the registry in the same step; the
status text surfaced for the poll is always
`f"[{id}] [{id}] Error: {data}"`, computed before `on_error` runs and
independent of whatever `on_error` returns (the code discards the
callback's return value). -/
theorem C6_amended (j : Nat) (data : PyVal) (cb : Callbacks)
    (names : List (Nat × String))
    (h1 : cb.hasOnError = true) (h2 : cb.errorRaises data = none) :
    (process_queue [⟨j, MsgKind.error, data⟩] [(j, cb)] names).events
      = [Event.error j data] ∧
    (process_queue [⟨j, MsgKind.error, data⟩] [(j, cb)] names).jobs = [] ∧
    (process_queue [⟨j, MsgKind.error, data⟩] [(j, cb)] names).statusUpdate
      = some (statusTag j (statusTag j ("Error: " ++ pyStrOf data)), true) := by
  refine ⟨?_, ?_, ?_⟩ <;>
    simp [process_queue, processQueueAux, lookupKey, Callbacks.falsy, dispatchMsg,
      removeKey, h1, h2]

/-- C6 amended witness: the concrete error drain of the counterexample
input, via the amended theorem. -/
theorem C6_amended_witness :
    (process_queue [⟨7, MsgKind.error, PyVal.vStr "boom"⟩] [(7, cbAll)] []).events
      = [Event.error 7 (PyVal.vStr "boom")] ∧
    (process_queue [⟨7, MsgKind.error, PyVal.vStr "boom"⟩] [(7, cbAll)] []).jobs = [] ∧
    (process_queue [⟨7, MsgKind.error, PyVal.vStr "boom"⟩] [(7, cbAll)] []).statusUpdate
      = some (statusTag 7 (statusTag 7 ("Error: " ++ pyStrOf (PyVal.vStr "boom"))), true) :=
  C6_amended 7 (PyVal.vStr "boom") cbAll [] rfl rfl

/-! ### C7 -/

theorem removeKey_of_lookupKey_none {α : Type} {i : Nat} :
    ∀ {l : List (Nat × α)}, lookupKey l i = none → removeKey l i = l := by
  intro l
  induction l with
  | nil => intro _; rfl
  | cons p rest ih =>
    intro h
    by_cases hc : p.1 = i
    · simp [lookupKey, hc] at h
    · simp only [lookupKey, if_neg hc] at h
      simp only [removeKey, if_neg hc]
      rw [ih h]

theorem processQueueAux_stale (j : Nat) :
    ∀ (ms : List Msg) (jobs : List (Nat × Callbacks)) (names : List (Nat × String))
      (status : Option (String × Bool)),
      lookupKey jobs j = none → (∀ m ∈ ms, m.jobId = j) →
      processQueueAux jobs names status ms
        = ⟨[], jobs, names, status, jobs.isEmpty, none, []⟩ := by
  intro ms
  induction ms with
  | nil => intro jobs names status _ _; rfl
  | cons m rest ih =>
    intro jobs names status hnone htag
    have hm : m.jobId = j := htag m (List.mem_cons_self m rest)
    have hskip : lookupKey jobs m.jobId = none := by rw [hm]; exact hnone
    simp only [processQueueAux, hskip]
    exact ih jobs names status hnone (fun m2 hm2 => htag m2 (List.mem_cons_of_mem _ hm2))

/-- C7: dispatch after removal is a silent no-op.  First, generally: a
drained message whose job id is absent from the registry invokes no
callback, raises nothing, and the drain simply continues with the rest.
Second, the scenario: after the terminal message of job `j` is drained
(invoking `on_finish` and removing `j`), any further messages tagged `j`
— whatever their kind — produce no callback invocation and no exception,
and the poll completes with the rest of the registry intact. -/
theorem C7_stale_after_terminal :
    (∀ (m : Msg) (rest : List Msg) (jobs : List (Nat × Callbacks))
      (names : List (Nat × String)) (status : Option (String × Bool)),
      lookupKey jobs m.jobId = none →
        processQueueAux jobs names status (m :: rest)
          = processQueueAux jobs names status rest) ∧
    (∀ (j : Nat) (cb : Callbacks) (others : List (Nat × Callbacks))
      (names : List (Nat × String)) (ms : List Msg),
      cb.hasOnFinish = true → cb.finishRaises = none →
      lookupKey others j = none → (∀ m ∈ ms, m.jobId = j) →
      (process_queue (⟨j, MsgKind.finish, PyVal.vNone⟩ :: ms) ((j, cb) :: others) names).events
        = [Event.finish j] ∧
      (process_queue (⟨j, MsgKind.finish, PyVal.vNone⟩ :: ms) ((j, cb) :: others) names).raised
        = none ∧
      (process_queue (⟨j, MsgKind.finish, PyVal.vNone⟩ :: ms) ((j, cb) :: others) names).jobs
        = others ∧
      (process_queue (⟨j, MsgKind.finish, PyVal.vNone⟩ :: ms) ((j, cb) :: others) names).remaining
        = []) := by
  constructor
  · intro m rest jobs names status hnone
    simp [processQueueAux, hnone]
  · intro j cb others names ms h1 h2 h3 htag
    have hfalsy : cb.falsy = false := by
      simp [Callbacks.falsy, h1]
    have hrm : removeKey ((j, cb) :: others) j = others := by
      simp only [removeKey, if_pos rfl]
      exact removeKey_of_lookupKey_none h3
    have hstale := processQueueAux_stale j ms others (removeKey names j)
      (some (statusTag j "Finished.", false)) h3 htag
    refine ⟨?_, ?_, ?_, ?_⟩ <;>
      simp [process_queue, processQueueAux, lookupKey, hfalsy, dispatchMsg, h1, h2,
        hrm, hstale]

/-- C7 witness: concrete instance — a finish for job 1 followed by a
stale chunk and a stale error both tagged 1, with job 2 still
registered; only `on_finish` of job 1 fires and job 2 stays. -/
theorem C7_stale_after_terminal_witness :
    processQueueAux [(2, cbAll)] [] none
        [⟨3, MsgKind.chunk, PyVal.vStr "w"⟩, ⟨2, MsgKind.chunk, PyVal.vStr "z"⟩]
        = processQueueAux [(2, cbAll)] [] none [⟨2, MsgKind.chunk, PyVal.vStr "z"⟩] ∧
    (process_queue
        [⟨1, MsgKind.finish, PyVal.vNone⟩, ⟨1, MsgKind.chunk, PyVal.vStr "stale"⟩,
          ⟨1, MsgKind.error, PyVal.vStr "stale2"⟩]
        [(1, cbAll), (2, cbChunkBoom)] []).events = [Event.finish 1] ∧
    (process_queue
        [⟨1, MsgKind.finish, PyVal.vNone⟩, ⟨1, MsgKind.chunk, PyVal.vStr "stale"⟩,
          ⟨1, MsgKind.error, PyVal.vStr "stale2"⟩]
        [(1, cbAll), (2, cbChunkBoom)] []).raised = none ∧
    (process_queue
        [⟨1, MsgKind.finish, PyVal.vNone⟩, ⟨1, MsgKind.chunk, PyVal.vStr "stale"⟩,
          ⟨1, MsgKind.error, PyVal.vStr "stale2"⟩]
        [(1, cbAll), (2, cbChunkBoom)] []).jobs = [(2, cbChunkBoom)] ∧
    (process_queue
        [⟨1, MsgKind.finish, PyVal.vNone⟩, ⟨1, MsgKind.chunk, PyVal.vStr "stale"⟩,
          ⟨1, MsgKind.error, PyVal.vStr "stale2"⟩]
        [(1, cbAll), (2, cbChunkBoom)] []).remaining = [] := by
  have h := C7_stale_after_terminal.2 1 cbAll [(2, cbChunkBoom)] []
    [⟨1, MsgKind.chunk, PyVal.vStr "stale"⟩, ⟨1, MsgKind.error, PyVal.vStr "stale2"⟩]
    rfl rfl rfl (by decide)
  have hskip := C7_stale_after_terminal.1 ⟨3, MsgKind.chunk, PyVal.vStr "w"⟩
    [⟨2, MsgKind.chunk, PyVal.vStr "z"⟩] [(2, cbAll)] [] none rfl
  exact ⟨hskip, h.1, h.2.1, h.2.2.1, h.2.2.2⟩

/-! ### C10 -/

theorem partMsgs_mem (j : Nat) (p : Part) (m : Msg) (hm : m ∈ partMsgs j p) :
    m.kind = (if p.thought then MsgKind.thought else MsgKind.chunk) ∧
    ∃ t, p.text = some t ∧ t ≠ "" ∧ m.payload = PyVal.vStr t := by
  cases hsig : p.thought_signature with
  | true => simp [partMsgs, hsig] at hm
  | false =>
    cases htext : p.text with
    | none => simp [partMsgs, hsig, htext] at hm
    | some t =>
      by_cases ht : t = ""
      · simp [partMsgs, hsig, htext, ht] at hm
      · simp only [partMsgs, hsig, htext, Bool.false_eq_true, if_false, if_neg ht,
          List.mem_singleton] at hm
        subst hm
        exact ⟨rfl, t, rfl, ht, rfl⟩

theorem partsMsgs_mem (j : Nat) :
    ∀ (ps : List Part), ∀ m ∈ partsMsgs j ps,
      ∃ t, m.payload = PyVal.vStr t ∧ t ≠ "" := by
  intro ps
  induction ps with
  | nil => intro m hm; simp [partsMsgs] at hm
  | cons p rest ih =>
    intro m hm
    rcases List.mem_append.mp (by simpa [partsMsgs] using hm) with hm2 | hm2
    · obtain ⟨_, t, _, ht, hpay⟩ := partMsgs_mem j p m hm2
      exact ⟨t, hpay, ht⟩
    · exact ih m hm2

/-- C10: on the candidates path, a part is turned into a queue message
exactly when its `thought_signature` is not truthy and its text is a
non-empty string; the message is classified `thought` or `chunk` by the
part's `thought` flag and carries the part's (non-empty) text, so every
payload enqueued from this path is a non-empty string; and the dispatch
of a `chunk`/`thought` message invokes the corresponding callback with
exactly that payload, hence never with an empty string for such parts. -/
theorem C10_candidates_path (j : Nat) :
    (∀ p : Part,
      (partMsgs j p ≠ [] ↔
        p.thought_signature = false ∧ ∃ t, p.text = some t ∧ t ≠ "") ∧
      ∀ m ∈ partMsgs j p,
        m.kind = (if p.thought then MsgKind.thought else MsgKind.chunk) ∧
        ∃ t, m.payload = PyVal.vStr t ∧ t ≠ "") ∧
    (∀ cs : List Candidate, ∀ m ∈ chunkMsgs j (RespChunk.cands cs),
      ∃ t, m.payload = PyVal.vStr t ∧ t ≠ "") ∧
    (∀ (cb : Callbacks) (m : Msg) (status : Option (String × Bool)),
      m.kind = MsgKind.chunk → cb.hasOnChunk = true →
        (dispatchMsg cb m status).1 = [Event.chunk m.jobId m.payload]) ∧
    (∀ (cb : Callbacks) (m : Msg) (status : Option (String × Bool)),
      m.kind = MsgKind.thought → cb.hasOnThought = true →
        (dispatchMsg cb m status).1 = [Event.thought m.jobId m.payload]) := by
  refine ⟨?_, ?_, ?_, ?_⟩
  · intro p
    constructor
    · constructor
      · intro hne
        cases hsig : p.thought_signature with
        | true => simp [partMsgs, hsig] at hne
        | false =>
          cases htext : p.text with
          | none => simp [partMsgs, hsig, htext] at hne
          | some t =>
            by_cases ht : t = ""
            · simp [partMsgs, hsig, htext, ht] at hne
            · exact ⟨rfl, t, rfl, ht⟩
      · rintro ⟨hsig, t, htext, ht⟩
        simp [partMsgs, hsig, htext, ht]
    · intro m hm
      obtain ⟨hkind, t, _, ht, hpay⟩ := partMsgs_mem j p m hm
      exact ⟨hkind, t, hpay, ht⟩
  · intro cs m hm
    cases cs with
    | nil => simp [chunkMsgs] at hm
    | cons cand rest =>
      cases hc : cand.content with
      | none => simp [chunkMsgs, hc] at hm
      | some ps =>
        simp only [chunkMsgs, hc] at hm
        exact partsMsgs_mem j ps m hm
  · intro cb m status hk h
    rcases m with ⟨id, kind, payload⟩
    simp only at hk
    subst hk
    cases hr : cb.chunkRaises payload <;> simp [dispatchMsg, h, hr]
  · intro cb m status hk h
    rcases m with ⟨id, kind, payload⟩
    simp only at hk
    subst hk
    cases hr : cb.thoughtRaises payload <;> simp [dispatchMsg, h, hr]

/-- C10 witness: a concrete part with non-empty text and no thought
signature yields exactly one chunk message with that text, and its
dispatch hands that payload to `on_chunk`. -/
theorem C10_candidates_path_witness :
    (partMsgs 1 ⟨some "hello", false, false⟩ ≠ [] ↔
      (false : Bool) = false ∧ ∃ t, some "hello" = some t ∧ t ≠ "") ∧
    (∃ t, (Msg.mk 1 MsgKind.chunk (PyVal.vStr "hello")).payload = PyVal.vStr t ∧ t ≠ "") ∧
    (dispatchMsg cbAll ⟨1, MsgKind.chunk, PyVal.vStr "hello"⟩ none).1
      = [Event.chunk 1 (PyVal.vStr "hello")] :=
  ⟨((C10_candidates_path 1).1 ⟨some "hello", false, false⟩).1,
    ((C10_candidates_path 1).2.1 [⟨some [⟨some "hello", false, false⟩]⟩]
      ⟨1, MsgKind.chunk, PyVal.vStr "hello"⟩ (by decide)),
    ((C10_candidates_path 1).2.2.1 cbAll ⟨1, MsgKind.chunk, PyVal.vStr "hello"⟩ none rfl rfl)⟩

end Vimini
